import Mathlib

/-!
Verification development for the favicon-fetcher library.

The library (TypeScript) fetches a web page, extracts icon / title /
description candidates from the HTML and the web-app manifest, merges them in
source-priority order, applies a default `favicon.ico` fallback, and
optionally enriches icons with decoded image metadata.

The embedding below translates the pure computational core of the source
files (`src/parser.ts`, `src/manifest.ts`, `src/metadata.ts`, `src/index.ts`)
into Lean.  Platform capabilities (the WHATWG `URL` constructor, the cheerio
HTML query API, the network transport, the image decoder) are modelled
explicitly: network and decoder outcomes are passed in as explicit arguments,
`cheerio.load` is an `Except` value (a thrown parse exception is the `error`
case), and `new URL` is modelled by a small hierarchical URL parser.
-/

namespace Favicon

/-! ## String capability helpers (model of the JS string primitives used) -/

/-- Model of JS `String.prototype.toLowerCase` restricted to ASCII. -/
def lowerStr (s : String) : String := ⟨s.data.map Char.toLower⟩

/-- Whitespace test used by the model of JS `String.prototype.trim`. -/
def isWS (c : Char) : Bool := c == ' ' || c == '\t' || c == '\n' || c == '\r'

/-- Model of JS `String.prototype.trim`. -/
def trimStr (s : String) : String :=
  ⟨((s.data.dropWhile isWS).reverse.dropWhile isWS).reverse⟩

/-- Substring test on character lists (model of JS `String.prototype.includes`). -/
def hasSubList (pat : List Char) : List Char → Bool
  | [] => pat.isEmpty
  | c :: cs => pat.isPrefixOf (c :: cs) || hasSubList pat cs

/-- Model of JS `haystack.includes(needle)`. -/
def strIncludes (hay pat : String) : Bool := hasSubList pat.data hay.data

/-- Model of the JS truthy-or-default idiom `x || d` on an optional string
(`undefined` and the empty string are falsy). -/
def jsOr (o : Option String) (d : String) : String :=
  match o with
  | some s => if s = "" then d else s
  | none => d

/-! ## URL model

Model of the WHATWG `URL` platform capability, restricted to hierarchical
`scheme://host/path` references (no percent-encoding, no dot-segment or case
normalisation, no non-hierarchical schemes).  This is the capability used by
`validateUrl`, `getDefaultFaviconUrl` and `resolveUrl` in the source. -/

structure Url where
  scheme : String
  host : String
  path : String
  deriving Repr, DecidableEq

/-- Serialisation of a parsed URL (JS `URL#href`). -/
def Url.href (u : Url) : String := u.scheme ++ "://" ++ u.host ++ u.path

/-- Model of `new URL(s)` (absolute parse): scheme letters, then `://`, then a
non-empty host up to the first `/`, then the path (defaulting to `/`).
Returns `none` where the JS constructor throws. -/
def Url.parse (s : String) : Option Url :=
  if (s.data.takeWhile Char.isAlpha).isEmpty then none
  else
    match s.data.dropWhile Char.isAlpha with
    | ':' :: '/' :: '/' :: r2 =>
      if (r2.takeWhile (fun c => c ≠ '/')).isEmpty then none
      else
        some ⟨⟨s.data.takeWhile Char.isAlpha⟩, ⟨r2.takeWhile (fun c => c ≠ '/')⟩,
              if (r2.dropWhile (fun c => c ≠ '/')).isEmpty then "/"
              else ⟨r2.dropWhile (fun c => c ≠ '/')⟩⟩
    | _ => none

/-- Does the string start with `scheme://` (letters then `://`)? -/
def hasSchemePrefix (s : String) : Bool :=
  let sch := s.data.takeWhile Char.isAlpha
  !sch.isEmpty && [':', '/', '/'].isPrefixOf (s.data.dropWhile Char.isAlpha)

/-- Directory part of a path: everything up to and including the last `/`. -/
def dirOf (path : String) : String :=
  ⟨(path.data.reverse.dropWhile (fun c => c ≠ '/')).reverse⟩

/-- Model of `new URL(rel, base)` (relative resolution).  An absolute `rel`
wins; a scheme-prefixed but unparseable `rel` throws; otherwise `rel` is
resolved against the parsed base (`none` when the base itself is invalid). -/
def Url.resolve (rel base : String) : Option Url :=
  match Url.parse rel with
  | some u => some u
  | none =>
    if hasSchemePrefix rel then none
    else
      match Url.parse base with
      | none => none
      | some b =>
        match rel.data with
        | [] => some b
        | '/' :: '/' :: _ => Url.parse (b.scheme ++ ":" ++ rel)
        | '/' :: _ => some ⟨b.scheme, b.host, rel⟩
        | _ => some ⟨b.scheme, b.host, dirOf b.path ++ rel⟩

/-- A string is an absolute URL when the model parser accepts it. -/
def isAbsoluteUrl (s : String) : Bool := (Url.parse s).isSome

/-! ## Data model (src/types.ts) -/

/-- Decoded image properties (`ImageMetadata` in src/types.ts); the raw byte
buffer is modelled as a list of bytes. -/
structure ImageMetadata where
  width : Nat
  height : Nat
  format : String
  size : Nat
  buffer : List Nat
  deriving Repr, DecidableEq

/-- An icon candidate (`Icon` in src/types.ts). -/
structure Icon where
  url : String
  type : String
  sizes : String
  source : String
  metadata : Option ImageMetadata
  deriving Repr, DecidableEq

/-- A title candidate (`Title` in src/types.ts). -/
structure Title where
  value : String
  source : String
  property : String
  deriving Repr, DecidableEq

/-- A description candidate (`Description` in src/types.ts). -/
structure Description where
  value : String
  source : String
  property : String
  deriving Repr, DecidableEq

/-- A recoverable-operation error record (`FetchError` in src/types.ts). -/
structure FetchError where
  step : String
  message : String
  url : Option String
  deriving Repr, DecidableEq

/-- Options accepted by `fetchFavicon` (`FetchOptions` in src/types.ts;
source defaults: `includeMetadata = false`, `timeout = 10000`). -/
structure FetchOptions where
  includeMetadata : Bool
  timeout : Nat
  userAgent : Option String
  deriving Repr, DecidableEq

/-- The result of `fetchFavicon` (`FetchResult` in src/types.ts). -/
structure FetchResult where
  url : String
  title : String
  titles : List Title
  descriptions : List Description
  icons : List Icon
  errors : Option (List FetchError)
  deriving Repr, DecidableEq

/-- An icon entry of a web-app manifest (`ManifestIcon` in src/types.ts);
fields of the untrusted JSON are optional, and a wrong-typed field is
modelled as absent. -/
structure ManifestIcon where
  src : Option String
  type : Option String
  sizes : Option String
  deriving Repr, DecidableEq

/-- A parsed web-app manifest (`WebAppManifest` in src/types.ts); `icons` is
`none` when absent or not an array. -/
structure WebAppManifest where
  name : Option String
  short_name : Option String
  description : Option String
  icons : Option (List ManifestIcon)
  deriving Repr, DecidableEq

/-! ## HTML document model (the cheerio query capability)

The extractors in src/parser.ts query a cheerio-parsed document only through
the selectors below, so the parsed document is modelled as the record of
those query results.  `attr` results are `Option String` (`none` = attribute
absent). -/

/-- One `<link>` element as seen through `attr('rel')`, `attr('href')`,
`attr('sizes')`. -/
structure LinkElem where
  rel : Option String
  href : Option String
  sizes : Option String
  deriving Repr, DecidableEq

/-- A cheerio-parsed HTML document, as observed by the extractors. -/
structure HtmlDoc where
  titleText : String
  ogTitle : Option String
  twitterTitle : Option String
  metaDescription : Option String
  ogDescription : Option String
  twitterDescription : Option String
  ogImage : Option String
  links : List LinkElem
  deriving Repr, DecidableEq

/-- The outcome of `cheerio.load(html)`: a document, or a thrown parse
exception (the `error` case) carrying its message. -/
def LoadResult := Except String HtmlDoc

/-! ## HTML extractors (src/parser.ts)

Each extractor wraps its whole body in `try/catch`; the catch logs a console
warning and returns the (empty) accumulator.  So every extractor is total:
the `error` case of the load outcome takes the catch path. -/

/-- `parseTitle` (src/parser.ts): first `<title>` text, trimmed; `""` on a
parse exception. -/
def parseTitle (load : Except String HtmlDoc) : String :=
  match load with
  | .error _ => ""
  | .ok doc => trimStr doc.titleText

/-- `parseTitles` (src/parser.ts): `<title>` (source html), then `og:title`
(source opengraph), then `twitter:title` (source twitter), each pushed only
when non-empty after trimming; `[]` on a parse exception. -/
def parseTitles (load : Except String HtmlDoc) : List Title :=
  match load with
  | .error _ => []
  | .ok doc =>
    (if trimStr doc.titleText ≠ "" then
        [⟨trimStr doc.titleText, "html", "title"⟩] else [])
    ++ (match doc.ogTitle with
        | some t => if t ≠ "" ∧ trimStr t ≠ "" then
            [⟨trimStr t, "opengraph", "og:title"⟩] else []
        | none => [])
    ++ (match doc.twitterTitle with
        | some t => if t ≠ "" ∧ trimStr t ≠ "" then
            [⟨trimStr t, "twitter", "twitter:title"⟩] else []
        | none => [])

/-- Modelled from the spec: `parseDescriptions` is imported and called by
src/index.ts but its definition is not among the source files under src/;
per spec §4.2 it is the analogous ordered collection from the
description-bearing meta tags, mirroring the multi-title extractor's
structure (html description, then `og:description`, then
`twitter:description`, each only when non-empty after trimming). -/
def parseDescriptions (load : Except String HtmlDoc) : List Description :=
  match load with
  | .error _ => []
  | .ok doc =>
    (match doc.metaDescription with
        | some t => if t ≠ "" ∧ trimStr t ≠ "" then
            [⟨trimStr t, "html", "description"⟩] else []
        | none => [])
    ++ (match doc.ogDescription with
        | some t => if t ≠ "" ∧ trimStr t ≠ "" then
            [⟨trimStr t, "opengraph", "og:description"⟩] else []
        | none => [])
    ++ (match doc.twitterDescription with
        | some t => if t ≠ "" ∧ trimStr t ≠ "" then
            [⟨trimStr t, "twitter", "twitter:description"⟩] else []
        | none => [])

/-- `resolveUrl` (src/parser.ts): `new URL(relativeUrl, baseUrl).href`, and
on a constructor exception the relative URL is returned unchanged. -/
def resolveUrl (relativeUrl baseUrl : String) : String :=
  match Url.resolve relativeUrl baseUrl with
  | some u => u.href
  | none => relativeUrl

/-- The `iconRelTypes` array of `parseIconLinks` (src/parser.ts). -/
def iconRelTypes : List String :=
  ["icon", "shortcut icon", "apple-touch-icon",
   "apple-touch-icon-precomposed", "mask-icon"]

/-- `parseIconLinks` (src/parser.ts): iterate all `<link>` elements pushing a
candidate for each element whose `rel` and `href` are truthy and whose
lower-cased `rel` includes one of `iconRelTypes`; afterwards, when no link
candidate was pushed and `og:image` content is truthy, push a single
`og:image` candidate.  `[]` on a parse exception. -/
def parseIconLinks (load : Except String HtmlDoc) (baseUrl : String) : List Icon :=
  match load with
  | .error _ => []
  | .ok doc =>
    let icons := doc.links.foldl (fun acc l =>
      match l.rel, l.href with
      | some rel, some href =>
        if rel ≠ "" ∧ href ≠ "" then
          if iconRelTypes.any (fun t => strIncludes (lowerStr rel) t) then
            acc ++ [⟨resolveUrl href baseUrl, rel, jsOr l.sizes "", "html", none⟩]
          else acc
        else acc
      | _, _ => acc) []
    match doc.ogImage with
    | some og =>
      if og ≠ "" ∧ icons.isEmpty then
        icons ++ [⟨resolveUrl og baseUrl, "og:image", "", "html", none⟩]
      else icons
    | none => icons

/-- `getManifestUrl` (src/parser.ts): the `href` of the first
`link[rel="manifest"]` element, resolved, when that href is truthy; `none`
otherwise or on a parse exception. -/
def getManifestUrl (load : Except String HtmlDoc) (baseUrl : String) : Option String :=
  match load with
  | .error _ => none
  | .ok doc =>
    match (doc.links.find? (fun l => l.rel == some "manifest")).bind (fun l => l.href) with
    | some h => if h ≠ "" then some (resolveUrl h baseUrl) else none
    | none => none

/-! ## Manifest resolver and extractors (src/manifest.ts) -/

/-- `fetchManifest` (src/manifest.ts): the outcome of
`fetchResource` + UTF-8 decode + `JSON.parse` is the explicit argument
(`error` = any fetch or parse failure); the internal catch logs a warning
and returns `null`. -/
def fetchManifest (raw : Except String WebAppManifest) : Option WebAppManifest :=
  match raw with
  | .ok m => some m
  | .error _ => none

/-- `extractIconsFromManifest` (src/manifest.ts): one icon per entry of the
`icons` array with a truthy `src`, in array order; `type` defaults to
`"manifest-icon"` and `sizes` to `""` under the JS `||` idiom. -/
def extractIconsFromManifest (manifest : WebAppManifest) (baseUrl : String) : List Icon :=
  match manifest.icons with
  | none => []
  | some entries =>
    entries.foldl (fun acc ic =>
      match ic.src with
      | some s =>
        if s ≠ "" then
          acc ++ [⟨resolveUrl s baseUrl, jsOr ic.type "manifest-icon",
                   jsOr ic.sizes "", "manifest", none⟩]
        else acc
      | none => acc) []

/-- `extractTitlesFromManifest` (src/manifest.ts): a candidate from `name`
then one from `short_name`, each only when string-typed and non-empty after
trimming. -/
def extractTitlesFromManifest (manifest : WebAppManifest) : List Title :=
  (match manifest.name with
   | some n => if n ≠ "" ∧ trimStr n ≠ "" then
       [⟨trimStr n, "manifest", "name"⟩] else []
   | none => [])
  ++ (match manifest.short_name with
      | some n => if n ≠ "" ∧ trimStr n ≠ "" then
          [⟨trimStr n, "manifest", "short_name"⟩] else []
      | none => [])

/-- `extractDescriptionsFromManifest` (src/manifest.ts): a candidate from
`description` when string-typed and non-empty after trimming. -/
def extractDescriptionsFromManifest (manifest : WebAppManifest) : List Description :=
  match manifest.description with
  | some d => if d ≠ "" ∧ trimStr d ≠ "" then
      [⟨trimStr d, "manifest", "description"⟩] else []
  | none => []

/-! ## Metadata enricher (src/metadata.ts)

`getImageMetadata` fetches the icon bytes and decodes them with `image-size`,
returning `null` on any fetch or decode failure (internal catch / missing
dimension fields).  Its outcome per icon URL is the explicit oracle
argument. -/

/-- `addMetadataToIcons` (src/metadata.ts): map over the icons, spreading the
decoded metadata onto the icon when `getImageMetadata` succeeded and
returning the icon unchanged when it returned `null`.  `Promise.all`
preserves the input order. -/
def addMetadataToIcons (icons : List Icon)
    (getMeta : String → Option ImageMetadata) : List Icon :=
  icons.map (fun icon =>
    match getMeta icon.url with
    | some m => { icon with metadata := some m }
    | none => icon)

/-! ## Orchestrator (src/index.ts) -/

/-- `validateUrl` (src/index.ts): parse the URL, require an http or https
protocol; any failure is caught and rethrown as `Invalid URL: <url>`. -/
def validateUrl (url : String) : Except String String :=
  match Url.parse url with
  | some u =>
    if u.scheme = "http" ∨ u.scheme = "https" then .ok u.href
    else .error ("Invalid URL: " ++ url)
  | none => .error ("Invalid URL: " ++ url)

/-- `getDefaultFaviconUrl` (src/index.ts):
`protocol + "//" + host + "/favicon.ico"` of the parsed base URL, `null`
when the base URL does not parse. -/
def getDefaultFaviconUrl (baseUrl : String) : Option String :=
  match Url.parse baseUrl with
  | some u => some (u.scheme ++ "://" ++ u.host ++ "/favicon.ico")
  | none => none

/-- Modelled from the spec: `fetchHTML` (src/fetcher.ts returns only the body
string, but src/index.ts destructures `{ html, finalUrl }`; the final-URL
returning version is not among the source files).  Per spec §4.5 step 2 a
successful fetch yields the HTML plus the final post-redirect URL; the HTML
is represented by its `cheerio.load` outcome. -/
structure FetchedPage where
  load : Except String HtmlDoc
  finalUrl : String

/-- Step 5 of `fetchFavicon` (src/index.ts): when a manifest URL was located,
fetch the manifest and run the three manifest extractors (with `finalUrl` as
the base); otherwise, or when `fetchManifest` returned `null`, contribute
empty lists.  `fetchManifest` never throws, so the surrounding catch that
would push a `fetch_manifest` error is unreachable. -/
def manifestData (load : Except String HtmlDoc) (finalUrl : String)
    (manifestFetch : Except String WebAppManifest) :
    List Icon × List Title × List Description :=
  match getManifestUrl load finalUrl with
  | some _ =>
    match fetchManifest manifestFetch with
    | some mf => (extractIconsFromManifest mf finalUrl,
                  extractTitlesFromManifest mf,
                  extractDescriptionsFromManifest mf)
    | none => ([], [], [])
  | none => ([], [], [])

/-- Step 6 of `fetchFavicon` (src/index.ts): `[...htmlIcons, ...manifestIcons]`. -/
def mergedIcons (load : Except String HtmlDoc) (finalUrl : String)
    (manifestFetch : Except String WebAppManifest) : List Icon :=
  parseIconLinks load finalUrl ++ (manifestData load finalUrl manifestFetch).1

/-- Step 7 of `fetchFavicon` (src/index.ts): when the merged list is empty
and the default favicon URL is constructible, push the single default icon. -/
def applyDefaultFallback (icons : List Icon) (finalUrl : String) : List Icon :=
  if icons.isEmpty then
    match getDefaultFaviconUrl finalUrl with
    | some d => [⟨d, "default", "", "default", none⟩]
    | none => []
  else icons

/-- Step 8 of `fetchFavicon` (src/index.ts): enrich only when requested and
at least one icon exists.  `addMetadataToIcons` never rejects
(`getImageMetadata` catches internally), so the surrounding catch that would
push an `add_metadata` error is unreachable. -/
def applyEnrichment (opts : FetchOptions) (icons : List Icon)
    (getMeta : String → Option ImageMetadata) : List Icon :=
  if opts.includeMetadata && !icons.isEmpty then addMetadataToIcons icons getMeta
  else icons

/-- `fetchFavicon` (src/index.ts).  The ambient effects are explicit
arguments: `fetchOutcome` is the outcome of `fetchHTML` on the normalized
URL, `manifestFetch` the outcome of the manifest resource fetch + JSON
parse, and `getMeta` the per-URL outcome of `getImageMetadata`.

Every extractor and `fetchManifest` catches its own exceptions internally
(returning an empty / `null` value), so none of the per-step catches in
src/index.ts can fire: the `errors` accumulator stays empty and, since the
code attaches `result.errors` only when non-empty, the result's `errors`
field is always absent. -/
def fetchFavicon (url : String) (opts : FetchOptions)
    (fetchOutcome : Except String FetchedPage)
    (manifestFetch : Except String WebAppManifest)
    (getMeta : String → Option ImageMetadata) : Except String FetchResult :=
  match validateUrl url with
  | .error e => .error e
  | .ok _normalizedUrl =>
    match fetchOutcome with
    | .error e => .error ("Failed to fetch favicon for " ++ url ++ ": " ++ e)
    | .ok page =>
      let md := manifestData page.load page.finalUrl manifestFetch
      let icons :=
        applyEnrichment opts
          (applyDefaultFallback (mergedIcons page.load page.finalUrl manifestFetch)
            page.finalUrl)
          getMeta
      .ok { url := page.finalUrl
            title := parseTitle page.load
            titles := parseTitles page.load ++ md.2.1
            descriptions := parseDescriptions page.load ++ md.2.2
            icons := icons
            errors := none }

/-! ## General list helpers -/

/-- `takeWhile` and `dropWhile` split an append at the first failing element. -/
lemma takeWhile_dropWhile_append {α} {p : α → Bool} {l₁ l₂ : List α}
    (h₁ : ∀ x ∈ l₁, p x = true)
    (h₂ : ∀ y, l₂.head? = some y → p y = false) :
    (l₁ ++ l₂).takeWhile p = l₁ ∧ (l₁ ++ l₂).dropWhile p = l₂ := by
  induction l₁ with
  | nil =>
    cases l₂ with
    | nil => simp
    | cons y ys =>
      have hy := h₂ y rfl
      simp [List.takeWhile_cons, List.dropWhile_cons, hy]
  | cons x xs ih =>
    have hx := h₁ x (List.mem_cons_self x xs)
    have hrest := ih (fun a ha => h₁ a (List.mem_cons_of_mem x ha))
    simp [List.takeWhile_cons, List.dropWhile_cons, hx, hrest.1, hrest.2]

/-- The head of a non-empty `dropWhile` result fails the predicate. -/
lemma dropWhile_head_false {α} {p : α → Bool} :
    ∀ {l : List α} {y : α} {ys : List α}, l.dropWhile p = y :: ys → p y = false := by
  intro l
  induction l with
  | nil => intro y ys h; simp at h
  | cons x xs ih =>
    intro y ys h
    cases hpx : p x with
    | true =>
      rw [List.dropWhile_cons, if_pos (by simp [hpx])] at h
      exact ih h
    | false =>
      rw [List.dropWhile_cons, if_neg (by simp [hpx])] at h
      injection h with h1 _
      rw [← h1]; exact hpx

/-- `dropWhile` keeps the final element when that element fails the predicate. -/
lemma dropWhile_concat_ne {α} {p : α → Bool} {a : α} (ha : p a = false) :
    ∀ l : List α, ∃ t, (l ++ [a]).dropWhile p = t ++ [a] := by
  intro l
  induction l with
  | nil => exact ⟨[], by simp [List.dropWhile_cons, ha]⟩
  | cons x xs ih =>
    cases hpx : p x with
    | true =>
      obtain ⟨t, ht⟩ := ih
      exact ⟨t, by simpa [List.dropWhile_cons, hpx] using ht⟩
    | false => exact ⟨x :: xs, by simp [List.dropWhile_cons, hpx]⟩

/-- An accumulator-append fold (the push-into-array loop idiom of the source)
is a `filterMap`. -/
lemma foldl_push_eq_filterMap {α β} (g : List β → α → List β) (f : α → Option β)
    (hg : ∀ acc x, g acc x = acc ++ (f x).toList) :
    ∀ (l : List α) (acc : List β), l.foldl g acc = acc ++ l.filterMap f := by
  intro l
  induction l with
  | nil => intro acc; simp
  | cons x xs ih =>
    intro acc
    rw [List.foldl_cons, hg, ih, List.filterMap_cons]
    cases hfx : f x <;> simp [hfx]

/-- A list is pairwise related when every ordered pair of members is. -/
lemma pairwise_of_forall_mem {α} {R : α → α → Prop} :
    ∀ {l : List α}, (∀ a ∈ l, ∀ b ∈ l, R a b) → l.Pairwise R := by
  intro l
  induction l with
  | nil => intro _; constructor
  | cons x xs ih =>
    intro h
    constructor
    · intro b hb
      exact h x (List.mem_cons_self x xs) b (List.mem_cons_of_mem x hb)
    · exact ih (fun a ha b hb =>
        h a (List.mem_cons_of_mem x ha) b (List.mem_cons_of_mem x hb))


/-! ## URL model lemmas -/


/-- Well-formedness invariant of parsed URLs. -/
def UrlWF (u : Url) : Prop :=
  u.scheme.data ≠ [] ∧ (∀ c ∈ u.scheme.data, c.isAlpha = true) ∧
  u.host.data ≠ [] ∧ (∀ c ∈ u.host.data, c ≠ '/') ∧
  ∃ cs, u.path.data = '/' :: cs

lemma parse_wf {s : String} {u : Url} (h : Url.parse s = some u) : UrlWF u := by
  unfold Url.parse at h
  split at h
  · exact absurd h (by simp)
  · rename_i hne
    split at h
    · rename_i r2 heq
      split at h
      · exact absurd h (by simp)
      · rename_i hhost
        injection h with h'
        subst h'
        refine ⟨?_, ?_, ?_, ?_, ?_⟩
        · simpa [List.isEmpty_iff] using hne
        · intro c hc; exact List.mem_takeWhile_imp hc
        · simpa [List.isEmpty_iff] using hhost
        · intro c hc
          have := List.mem_takeWhile_imp hc
          simpa using this
        · simp only []
          split
          · exact ⟨[], rfl⟩
          · rename_i hpc
            cases hd : (r2.dropWhile (fun c => decide (c ≠ '/'))) with
            | nil => exact absurd hd (by simpa [List.isEmpty_iff] using hpc)
            | cons y ys =>
              have hy := dropWhile_head_false hd
              have : y = '/' := by simpa using hy
              exact ⟨ys, by simp [hd, this]⟩
    · exact absurd h (by simp)



lemma resolve_wf {rel base : String} {u : Url} (h : Url.resolve rel base = some u) :
    UrlWF u := by
  unfold Url.resolve at h
  split at h
  · rename_i u0 hp
    injection h with h'; subst h'
    exact parse_wf hp
  · rename_i hp
    split at h
    · exact absurd h (by simp)
    · split at h
      · exact absurd h (by simp)
      · rename_i b hb
        have hbwf := parse_wf hb
        obtain ⟨hb1, hb2, hb3, hb4, cs, hb5⟩ := hbwf
        split at h
        · injection h with h'; subst h'
          exact ⟨hb1, hb2, hb3, hb4, cs, hb5⟩
        · exact parse_wf h
        · rename_i heq
          injection h with h'; subst h'
          refine ⟨hb1, hb2, hb3, hb4, ?_⟩
          rename_i tail _
          exact ⟨tail, heq⟩
        · rename_i heq1 heq2 heq3
          injection h with h'; subst h'
          refine ⟨hb1, hb2, hb3, hb4, ?_⟩
          obtain ⟨t, ht⟩ :=
            @dropWhile_concat_ne Char (fun c : Char => decide (c ≠ '/')) '/'
              (by simp) cs.reverse
          refine ⟨t.reverse ++ rel.data, ?_⟩
          have hdir : (dirOf b.path).data = '/' :: t.reverse := by
            show ((b.path.data.reverse.dropWhile (fun c => c ≠ '/')).reverse : List Char) = _
            rw [hb5, List.reverse_cons, ht]
            simp
          rw [String.data_append, hdir]
          simp



lemma wf_parse_href {u : Url} (h : UrlWF u) : Url.parse u.href = some u := by
  obtain ⟨h1, h2, h3, h4, cs, h5⟩ := h
  have hdata : u.href.data
      = u.scheme.data ++ (':' :: '/' :: '/' :: (u.host.data ++ u.path.data)) := by
    show (u.scheme ++ "://" ++ u.host ++ u.path).data = _
    rw [String.data_append, String.data_append, String.data_append]
    have : ("://" : String).data = [':', '/', '/'] := rfl
    rw [this]
    simp
  have hsch := @takeWhile_dropWhile_append Char Char.isAlpha
    u.scheme.data (':' :: '/' :: '/' :: (u.host.data ++ u.path.data))
    h2 (by intro y hy; injection hy with hy'; rw [← hy']; decide)
  have hhost := @takeWhile_dropWhile_append Char (fun c : Char => decide (c ≠ '/'))
    u.host.data u.path.data
    (by intro x hx; simpa using h4 x hx)
    (by intro y hy; rw [h5] at hy; injection hy with hy'; rw [← hy']; simp)
  unfold Url.parse
  rw [hdata, hsch.1, hsch.2]
  rw [if_neg (by simpa [List.isEmpty_iff] using h1)]
  simp only []
  rw [hhost.1, hhost.2]
  rw [if_neg (by simpa [List.isEmpty_iff] using h3)]
  rw [if_neg (by rw [h5]; simp)]

lemma wf_isAbsolute {u : Url} (h : UrlWF u) : isAbsoluteUrl u.href = true := by
  rw [isAbsoluteUrl, wf_parse_href h]
  rfl

/-- Every successfully resolved URL serialises to an absolute URL string. -/
lemma resolveUrl_absolute {rel base : String} {u : Url}
    (h : Url.resolve rel base = some u) :
    resolveUrl rel base = u.href ∧ isAbsoluteUrl (resolveUrl rel base) = true := by
  have : resolveUrl rel base = u.href := by rw [resolveUrl, h]
  exact ⟨this, by rw [this]; exact wf_isAbsolute (resolve_wf h)⟩

/-- When resolution fails, `resolveUrl` returns the href unchanged. -/
lemma resolveUrl_of_fail {rel base : String} (h : Url.resolve rel base = none) :
    resolveUrl rel base = rel := by
  rw [resolveUrl, h]


/-! ## Extractor and pipeline lemmas -/


/-! ## Extractor characterization -/

/-- The per-link candidate of the icon-link extractor, as the spec phrases
it: a candidate exactly when the element has a (truthy) `href` and a
(truthy) `rel` whose case-folded value contains one of the icon rel tokens;
the candidate's fields are the resolved href, the raw rel, the sizes
attribute or empty, and source html. -/
def iconCandidateOf (baseUrl : String) (l : LinkElem) : Option Icon :=
  match l.rel, l.href with
  | some rel, some href =>
    if rel ≠ "" ∧ href ≠ "" ∧ iconRelTypes.any (fun t => strIncludes (lowerStr rel) t) then
      some ⟨resolveUrl href baseUrl, rel, jsOr l.sizes "", "html", none⟩
    else none
  | _, _ => none

/-- Declarative form of the icon-link extractor: one candidate per matching
link in document order, and the single `og:image` fallback exactly when no
link matched and the `og:image` content is truthy. -/
def parseIconLinksSpec (doc : HtmlDoc) (baseUrl : String) : List Icon :=
  let cands := doc.links.filterMap (iconCandidateOf baseUrl)
  if cands.isEmpty then
    match doc.ogImage with
    | some og =>
      if og ≠ "" then [⟨resolveUrl og baseUrl, "og:image", "", "html", none⟩]
      else []
    | none => []
  else cands

lemma parseIconLinks_eq_spec (doc : HtmlDoc) (baseUrl : String) :
    parseIconLinks (.ok doc) baseUrl = parseIconLinksSpec doc baseUrl := by
  unfold parseIconLinks parseIconLinksSpec
  have hg : ∀ (acc : List Icon) (l : LinkElem),
      (match l.rel, l.href with
       | some rel, some href =>
         if rel ≠ "" ∧ href ≠ "" then
           if iconRelTypes.any (fun t => strIncludes (lowerStr rel) t) then
             acc ++ [⟨resolveUrl href baseUrl, rel, jsOr l.sizes "", "html", none⟩]
           else acc
         else acc
       | _, _ => acc)
      = acc ++ (iconCandidateOf baseUrl l).toList := by
    intro acc l
    rcases l with ⟨r, h, sz⟩
    cases r with
    | none => simp [iconCandidateOf]
    | some rel =>
      cases h with
      | none => simp [iconCandidateOf]
      | some href =>
        by_cases h1 : rel = ""
        · simp [iconCandidateOf, h1]
        · by_cases h2 : href = ""
          · simp [iconCandidateOf, h1, h2]
          · by_cases h3 : iconRelTypes.any (fun t => strIncludes (lowerStr rel) t)
            · simp [iconCandidateOf, h1, h2, h3]
            · simp [iconCandidateOf, h1, h2, h3]
  simp only []
  rw [foldl_push_eq_filterMap _ (iconCandidateOf baseUrl) hg doc.links []]
  simp only [List.nil_append]
  cases hog : doc.ogImage with
  | none =>
    cases hc : (doc.links.filterMap (iconCandidateOf baseUrl)).isEmpty
    · simp [hc]
    · simp [List.isEmpty_iff.mp hc]
  | some og =>
    by_cases hogne : og = ""
    · cases hc : (doc.links.filterMap (iconCandidateOf baseUrl)).isEmpty
      · simp [hogne, hc]
      · simp [hogne, List.isEmpty_iff.mp hc]
    · cases hc : (doc.links.filterMap (iconCandidateOf baseUrl)).isEmpty
      · simp [hogne, hc]
      · simp [hogne, List.isEmpty_iff.mp hc]



/-- The per-entry candidate of the manifest icon extractor. -/
def manifestIconOf (baseUrl : String) (ic : ManifestIcon) : Option Icon :=
  match ic.src with
  | some s =>
    if s ≠ "" then
      some ⟨resolveUrl s baseUrl, jsOr ic.type "manifest-icon", jsOr ic.sizes "",
            "manifest", none⟩
    else none
  | none => none

lemma extractIconsFromManifest_eq (manifest : WebAppManifest) (baseUrl : String) :
    extractIconsFromManifest manifest baseUrl
      = (manifest.icons.getD []).filterMap (manifestIconOf baseUrl) := by
  unfold extractIconsFromManifest
  have hg : ∀ (acc : List Icon) (ic : ManifestIcon),
      (match ic.src with
       | some s =>
         if s ≠ "" then
           acc ++ [⟨resolveUrl s baseUrl, jsOr ic.type "manifest-icon",
                    jsOr ic.sizes "", "manifest", none⟩]
         else acc
       | none => acc)
      = acc ++ (manifestIconOf baseUrl ic).toList := by
    intro acc ic
    cases hs : ic.src with
    | none => simp [manifestIconOf, hs]
    | some s =>
      by_cases h1 : s = ""
      · simp [manifestIconOf, hs, h1]
      · simp [manifestIconOf, hs, h1]
  cases hmi : manifest.icons with
  | none => simp
  | some entries =>
    simp only []
    rw [foldl_push_eq_filterMap _ (manifestIconOf baseUrl) hg entries []]
    simp

/-- Every icon emitted by the HTML icon-link extractor has source html. -/
lemma parseIconLinks_source {load : Except String HtmlDoc} {baseUrl : String}
    {i : Icon} (h : i ∈ parseIconLinks load baseUrl) : i.source = "html" := by
  cases load with
  | error e => simp [parseIconLinks] at h
  | ok doc =>
    rw [parseIconLinks_eq_spec] at h
    unfold parseIconLinksSpec at h
    simp only [] at h
    split at h
    · split at h
      · rename_i og hog
        split at h
        · simp at h
          rw [h]
        · simp at h
      · simp at h
    · rw [List.mem_filterMap] at h
      obtain ⟨l, _, hl⟩ := h
      unfold iconCandidateOf at hl
      split at hl
      · split at hl
        · injection hl with hl'
          rw [← hl']
        · exact absurd hl (by simp)
      · exact absurd hl (by simp)

/-- Every icon emitted by the manifest icon extractor has source manifest. -/
lemma extractIconsFromManifest_source {manifest : WebAppManifest}
    {baseUrl : String} {i : Icon}
    (h : i ∈ extractIconsFromManifest manifest baseUrl) : i.source = "manifest" := by
  rw [extractIconsFromManifest_eq, List.mem_filterMap] at h
  obtain ⟨ic, _, hic⟩ := h
  unfold manifestIconOf at hic
  split at hic
  · split at hic
    · injection hic with hic'
      rw [← hic']
    · exact absurd hic (by simp)
  · exact absurd hic (by simp)

/-- Source priority: html before manifest before default. -/
def srcPrio (s : String) : Nat :=
  if s = "html" then 0 else if s = "manifest" then 1 else 2

/-- Enrichment rewrites only the metadata field of each icon. -/
lemma addMetadataToIcons_fields (icons : List Icon)
    (getMeta : String → Option ImageMetadata) :
    List.Forall₂ (fun inp out =>
      out.url = inp.url ∧ out.type = inp.type ∧ out.sizes = inp.sizes ∧
      out.source = inp.source ∧
      (getMeta inp.url = none → out = inp) ∧
      (∀ m, getMeta inp.url = some m → out.metadata = some m))
      icons (addMetadataToIcons icons getMeta) := by
  induction icons with
  | nil => constructor
  | cons x xs ih =>
    refine List.Forall₂.cons ?_ ih
    cases hm : getMeta x.url with
    | none => simp [addMetadataToIcons, hm]
    | some m =>
      refine ⟨?_, ?_, ?_, ?_, ?_, ?_⟩ <;> simp [addMetadataToIcons, hm]



/-- Shape of a successful `fetchFavicon` call. -/
lemma fetchFavicon_ok {url n : String} {opts : FetchOptions} {page : FetchedPage}
    {manifestFetch : Except String WebAppManifest}
    {getMeta : String → Option ImageMetadata}
    (hval : validateUrl url = .ok n) :
    fetchFavicon url opts (.ok page) manifestFetch getMeta
      = .ok { url := page.finalUrl
              title := parseTitle page.load
              titles := parseTitles page.load
                ++ (manifestData page.load page.finalUrl manifestFetch).2.1
              descriptions := parseDescriptions page.load
                ++ (manifestData page.load page.finalUrl manifestFetch).2.2
              icons := applyEnrichment opts
                (applyDefaultFallback
                  (mergedIcons page.load page.finalUrl manifestFetch) page.finalUrl)
                getMeta
              errors := none } := by
  unfold fetchFavicon
  rw [hval]

/-- With a failed manifest fetch the manifest extractors contribute nothing. -/
lemma manifestData_error (load : Except String HtmlDoc) (finalUrl e : String) :
    manifestData load finalUrl (.error e) = ([], [], []) := by
  unfold manifestData fetchManifest
  cases getManifestUrl load finalUrl <;> simp

/-- All extractors contribute empty results on an HTML parse exception. -/
lemma extractors_on_error (e : String) (baseUrl : String) :
    parseTitle (.error e) = "" ∧ parseTitles (.error e) = [] ∧
    parseDescriptions (.error e) = [] ∧ parseIconLinks (.error e) baseUrl = [] ∧
    getManifestUrl (.error e) baseUrl = none := by
  refine ⟨rfl, rfl, rfl, rfl, rfl⟩

/-- The merged icon list is ordered html before manifest. -/
lemma mergedIcons_pairwise (load : Except String HtmlDoc) (finalUrl : String)
    (manifestFetch : Except String WebAppManifest) :
    (mergedIcons load finalUrl manifestFetch).Pairwise
      (fun a b => srcPrio a.source ≤ srcPrio b.source) := by
  unfold mergedIcons
  rw [List.pairwise_append]
  have hmani : ∀ i ∈ (manifestData load finalUrl manifestFetch).1,
      i.source = "manifest" := by
    intro i hi
    unfold manifestData at hi
    split at hi
    · split at hi
      · exact extractIconsFromManifest_source hi
      · simp at hi
    · simp at hi
  refine ⟨?_, ?_, ?_⟩
  · refine pairwise_of_forall_mem (fun a ha b hb => ?_)
    rw [parseIconLinks_source ha, parseIconLinks_source hb]
  · refine pairwise_of_forall_mem (fun a ha b hb => ?_)
    rw [hmani a ha, hmani b hb]
  · intro a ha b hb
    rw [parseIconLinks_source ha, hmani b hb]
    simp [srcPrio]

/-- The fallback step keeps the priority ordering. -/
lemma applyDefaultFallback_pairwise (icons : List Icon) (finalUrl : String)
    (h : icons.Pairwise (fun a b => srcPrio a.source ≤ srcPrio b.source)) :
    (applyDefaultFallback icons finalUrl).Pairwise
      (fun a b => srcPrio a.source ≤ srcPrio b.source) := by
  unfold applyDefaultFallback
  split
  · split <;> simp
  · exact h

/-- Enrichment keeps each icon's source, hence the priority ordering. -/
lemma applyEnrichment_pairwise (opts : FetchOptions) (icons : List Icon)
    (getMeta : String → Option ImageMetadata)
    (h : icons.Pairwise (fun a b => srcPrio a.source ≤ srcPrio b.source)) :
    (applyEnrichment opts icons getMeta).Pairwise
      (fun a b => srcPrio a.source ≤ srcPrio b.source) := by
  unfold applyEnrichment
  split
  · unfold addMetadataToIcons
    rw [List.pairwise_map]
    refine h.imp ?_
    intro a b hab
    have hsa : (match getMeta a.url with
        | some m => { a with metadata := some m }
        | none => a).source = a.source := by
      cases getMeta a.url <;> rfl
    have hsb : (match getMeta b.url with
        | some m => { b with metadata := some m }
        | none => b).source = b.source := by
      cases getMeta b.url <;> rfl
    rw [hsa, hsb]
    exact hab
  · exact h


/-! ## Claim theorems -/


/-! ## Concrete inputs used by witnesses and counterexamples -/

/-- An HTML document with no titles, metas or links. -/
def emptyDoc : HtmlDoc where
  titleText := ""
  ogTitle := none
  twitterTitle := none
  metaDescription := none
  ogDescription := none
  twitterDescription := none
  ogImage := none
  links := []

/-- The source's default options. -/
def defaultOpts : FetchOptions := ⟨false, 10000, none⟩

/-- A document whose only icon link carries a relative href. -/
def relHrefDoc : HtmlDoc := { emptyDoc with links := [⟨some "icon", some "foo.png", none⟩] }

/-! ## C10 -/

/-- A generic split of `resolveUrl` used below: a resolved href serialises to
an absolute URL; a failed resolution keeps an href on which resolution keeps
failing. -/
lemma resolveUrl_abs_or_none (href baseUrl : String) :
    isAbsoluteUrl (resolveUrl href baseUrl) = true
      ∨ Url.resolve (resolveUrl href baseUrl) baseUrl = none := by
  cases h : Url.resolve href baseUrl with
  | none =>
    right
    rw [resolveUrl_of_fail h]
    exact h
  | some u => exact Or.inl (resolveUrl_absolute h).2

/-- C10: `resolveUrl` is total — for every pair of strings it returns a
string: the serialised resolved URL when `new URL(href, base)` succeeds, and
the href argument unchanged (possibly still relative) when the pair does not
form a parseable URL. -/
theorem resolveUrl_total_two_cases (href base : String) :
    (Url.resolve href base = none ∧ resolveUrl href base = href)
    ∨ (∃ u, Url.resolve href base = some u ∧ resolveUrl href base = u.href) := by
  cases h : Url.resolve href base with
  | none => exact Or.inl ⟨rfl, resolveUrl_of_fail h⟩
  | some u => exact Or.inr ⟨u, rfl, (resolveUrl_absolute h).1⟩

/-! ## C9 -/

/-- Membership in the icon-link extractor output comes from resolving some
href. -/
lemma mem_parseIconLinks_url {load : Except String HtmlDoc} {baseUrl : String}
    {i : Icon} (h : i ∈ parseIconLinks load baseUrl) :
    ∃ href, i.url = resolveUrl href baseUrl := by
  cases load with
  | error e => simp [parseIconLinks] at h
  | ok doc =>
    rw [parseIconLinks_eq_spec] at h
    unfold parseIconLinksSpec at h
    simp only [] at h
    split at h
    · split at h
      · rename_i og hog
        split at h
        · simp at h
          exact ⟨og, by rw [h]⟩
        · simp at h
      · simp at h
    · rw [List.mem_filterMap] at h
      obtain ⟨l, _, hl⟩ := h
      unfold iconCandidateOf at hl
      split at hl
      · split at hl
        · injection hl with hl'
          subst hl'
          exact ⟨_, rfl⟩
        · exact absurd hl (by simp)
      · exact absurd hl (by simp)

/-- Membership in the manifest icon extractor output comes from resolving
some src. -/
lemma mem_extractIconsFromManifest_url {manifest : WebAppManifest}
    {baseUrl : String} {i : Icon}
    (h : i ∈ extractIconsFromManifest manifest baseUrl) :
    ∃ src, i.url = resolveUrl src baseUrl := by
  rw [extractIconsFromManifest_eq, List.mem_filterMap] at h
  obtain ⟨ic, _, hic⟩ := h
  unfold manifestIconOf at hic
  split at hic
  · split at hic
    · injection hic with hic'
      subst hic'
      exact ⟨_, rfl⟩
    · exact absurd hic (by simp)
  · exact absurd hic (by simp)

/-- C9 counterexample: with an unparseable base URL the extractor keeps the
raw relative href, so an extractor-produced icon need not carry an absolute
URL. -/
theorem icon_url_not_absolute_counterexample :
    parseIconLinks (.ok relHrefDoc) "" = [⟨"foo.png", "icon", "", "html", none⟩]
    ∧ isAbsoluteUrl "foo.png" = false := by
  exact ⟨rfl, rfl⟩

/-- C9 (amended): every icon produced by the HTML icon-link extractor or the
manifest icon extractor carries either an absolute URL (always the case when
URL resolution of its originating href against the base URL succeeds) or the
raw unresolvable href unchanged — possibly relative; the synthesized default
icon URL, when constructible, is always absolute. -/
theorem icon_url_absolute_or_raw :
    (∀ (load : Except String HtmlDoc) (baseUrl : String) (i : Icon),
       i ∈ parseIconLinks load baseUrl →
       isAbsoluteUrl i.url = true ∨ Url.resolve i.url baseUrl = none)
    ∧ (∀ (manifest : WebAppManifest) (baseUrl : String) (i : Icon),
       i ∈ extractIconsFromManifest manifest baseUrl →
       isAbsoluteUrl i.url = true ∨ Url.resolve i.url baseUrl = none)
    ∧ (∀ baseUrl d, getDefaultFaviconUrl baseUrl = some d →
       isAbsoluteUrl d = true) := by
  refine ⟨?_, ?_, ?_⟩
  · intro load baseUrl i h
    obtain ⟨href, hh⟩ := mem_parseIconLinks_url h
    rw [hh]
    exact resolveUrl_abs_or_none href baseUrl
  · intro manifest baseUrl i h
    obtain ⟨src, hh⟩ := mem_extractIconsFromManifest_url h
    rw [hh]
    exact resolveUrl_abs_or_none src baseUrl
  · intro baseUrl d h
    unfold getDefaultFaviconUrl at h
    split at h
    · rename_i u hu
      injection h with h'
      have hwf := parse_wf hu
      obtain ⟨h1, h2, h3, h4, _, _⟩ := hwf
      have : d = Url.href ⟨u.scheme, u.host, "/favicon.ico"⟩ := by
        rw [← h']
        rfl
      rw [this]
      exact wf_isAbsolute ⟨h1, h2, h3, h4, "favicon.ico".data, rfl⟩
    · exact absurd h (by simp)

/-- C9 witness: the amended theorem applied to a concrete resolvable link. -/
theorem icon_url_absolute_or_raw_witness :
    isAbsoluteUrl "https://example.com/fav.png" = true
    ∨ Url.resolve "https://example.com/fav.png" "https://example.com/x/" = none := by
  refine icon_url_absolute_or_raw.1 (.ok { emptyDoc with
      links := [⟨some "icon", some "/fav.png", none⟩] }) "https://example.com/x/"
    ⟨"https://example.com/fav.png", "icon", "", "html", none⟩ ?_
  decide



/-! ## C6 -/

/-- C6: on every parsed document and base URL the icon-link extractor emits
exactly the per-link candidates — one candidate per link element, in
document order, exactly when the element has a truthy href and its
case-folded rel contains one of the icon tokens, with url the resolved
href, type the raw rel string, sizes the sizes attribute or empty, and
source html — and the single `og:image` fallback candidate (type
"og:image") exactly when zero such links were found and a truthy
`og:image` meta content exists. -/
theorem parseIconLinks_characterization (doc : HtmlDoc) (baseUrl : String) :
    parseIconLinks (.ok doc) baseUrl = parseIconLinksSpec doc baseUrl :=
  parseIconLinks_eq_spec doc baseUrl

/-! ## C8 -/

/-- C8: metadata enrichment maps each icon independently: the output has the
same length (and order, expressed by the positional `Forall₂` pairing) as
the input; an icon whose fetch or decode failed is returned unchanged and
never dropped; an icon whose decode succeeded is the input icon with only
its metadata field set. -/
theorem addMetadataToIcons_pointwise (icons : List Icon)
    (getMeta : String → Option ImageMetadata) :
    (addMetadataToIcons icons getMeta).length = icons.length
    ∧ List.Forall₂ (fun inp out =>
        (getMeta inp.url = none → out = inp)
        ∧ (∀ m, getMeta inp.url = some m → out = { inp with metadata := some m }))
      icons (addMetadataToIcons icons getMeta) := by
  constructor
  · unfold addMetadataToIcons
    exact List.length_map icons _
  · induction icons with
    | nil => constructor
    | cons x xs ih =>
      refine List.Forall₂.cons ?_ ih
      cases hm : getMeta x.url with
      | none =>
        refine ⟨fun _ => ?_, fun m hm' => ?_⟩
        · simp [addMetadataToIcons, hm]
        · exact absurd hm' (by simp)
      | some m =>
        refine ⟨fun h => ?_, fun m' hm' => ?_⟩
        · exact absurd h (by simp)
        · injection hm' with e
          rw [← e]
          simp [hm]

/-- C8 witness: the pointwise theorem applied to a concrete two-icon list
where one decode fails and the other succeeds. -/
theorem addMetadataToIcons_pointwise_witness :
    (addMetadataToIcons
        [⟨"https://example.com/a.png", "icon", "", "html", none⟩,
         ⟨"https://example.com/b.png", "icon", "", "html", none⟩]
        (fun u => if u = "https://example.com/a.png"
          then some ⟨16, 16, "png", 100, []⟩ else none)).length = 2 :=
  (addMetadataToIcons_pointwise
    [⟨"https://example.com/a.png", "icon", "", "html", none⟩,
     ⟨"https://example.com/b.png", "icon", "", "html", none⟩]
    (fun u => if u = "https://example.com/a.png"
      then some ⟨16, 16, "png", 100, []⟩ else none)).1



/-! ## C1 -/

/-- C1: for a validated http(s) URL whose HTML fetch succeeded, if the
merged HTML-plus-manifest icon list is empty then the result's icons list is
exactly one synthesized default icon at `{scheme}://{host}/favicon.ico` of
the page's final URL, with type "default", sizes "" and source "default";
consequently the successful call does not return an empty icons list. -/
theorem fetchFavicon_default_fallback (url n : String) (opts : FetchOptions)
    (page : FetchedPage) (manifestFetch : Except String WebAppManifest)
    (getMeta : String → Option ImageMetadata) (u : Url)
    (hval : validateUrl url = .ok n)
    (hfin : Url.parse page.finalUrl = some u)
    (hempty : mergedIcons page.load page.finalUrl manifestFetch = []) :
    ∃ r icon, fetchFavicon url opts (.ok page) manifestFetch getMeta = .ok r
      ∧ r.icons = [icon]
      ∧ icon.url = u.scheme ++ "://" ++ u.host ++ "/favicon.ico"
      ∧ icon.type = "default" ∧ icon.sizes = "" ∧ icon.source = "default"
      ∧ r.icons ≠ [] := by
  have hfb : applyDefaultFallback
      (mergedIcons page.load page.finalUrl manifestFetch) page.finalUrl
      = [⟨u.scheme ++ "://" ++ u.host ++ "/favicon.ico", "default", "", "default", none⟩] := by
    rw [hempty]
    unfold applyDefaultFallback getDefaultFaviconUrl
    rw [hfin]
    simp
  have henr : ∃ icon,
      applyEnrichment opts
        [⟨u.scheme ++ "://" ++ u.host ++ "/favicon.ico", "default", "", "default", none⟩]
        getMeta = [icon]
      ∧ icon.url = u.scheme ++ "://" ++ u.host ++ "/favicon.ico"
      ∧ icon.type = "default" ∧ icon.sizes = "" ∧ icon.source = "default" := by
    unfold applyEnrichment
    split
    · cases hm : getMeta (u.scheme ++ "://" ++ u.host ++ "/favicon.ico") with
      | none =>
        exact ⟨⟨u.scheme ++ "://" ++ u.host ++ "/favicon.ico", "default", "", "default", none⟩,
          by simp [addMetadataToIcons, hm], rfl, rfl, rfl, rfl⟩
      | some m =>
        exact ⟨⟨u.scheme ++ "://" ++ u.host ++ "/favicon.ico", "default", "", "default", some m⟩,
          by simp [addMetadataToIcons, hm], rfl, rfl, rfl, rfl⟩
    · exact ⟨⟨u.scheme ++ "://" ++ u.host ++ "/favicon.ico", "default", "", "default", none⟩,
        rfl, rfl, rfl, rfl, rfl⟩
  obtain ⟨icon, hicon, h1, h2, h3, h4⟩ := henr
  refine ⟨_, icon, fetchFavicon_ok hval, ?_, h1, h2, h3, h4, ?_⟩
  · show applyEnrichment opts
      (applyDefaultFallback (mergedIcons page.load page.finalUrl manifestFetch)
        page.finalUrl) getMeta = [icon]
    rw [hfb, hicon]
  · show applyEnrichment opts
      (applyDefaultFallback (mergedIcons page.load page.finalUrl manifestFetch)
        page.finalUrl) getMeta ≠ []
    rw [hfb, hicon]
    simp

/-- C1 witness: a concrete successful call on a page with no discoverable
icons yields exactly the default `favicon.ico` icon. -/
theorem fetchFavicon_default_fallback_witness :
    ∃ r icon, fetchFavicon "https://example.com/page" defaultOpts
        (.ok ⟨.ok emptyDoc, "https://example.com/page"⟩) (.error "no manifest")
        (fun _ => none) = .ok r
      ∧ r.icons = [icon]
      ∧ icon.url = "https" ++ "://" ++ "example.com" ++ "/favicon.ico"
      ∧ icon.type = "default" ∧ icon.sizes = "" ∧ icon.source = "default"
      ∧ r.icons ≠ [] :=
  fetchFavicon_default_fallback "https://example.com/page" "https://example.com/page"
    defaultOpts ⟨.ok emptyDoc, "https://example.com/page"⟩ (.error "no manifest")
    (fun _ => none) ⟨"https", "example.com", "/page"⟩ rfl rfl rfl

/-! ## C2 -/

/-- C2: a successful `fetchFavicon` reports the final post-redirect URL as
the result's url field, resolves every relative URL (icon link hrefs, the
manifest link href, manifest icon srcs) against that final URL, and its
result does not depend on which validated URL was originally requested. -/
theorem fetchFavicon_uses_final_url (url n url2 n2 : String) (opts : FetchOptions)
    (page : FetchedPage) (manifestFetch : Except String WebAppManifest)
    (getMeta : String → Option ImageMetadata)
    (hval : validateUrl url = .ok n) (hval2 : validateUrl url2 = .ok n2) :
    ∃ r, fetchFavicon url opts (.ok page) manifestFetch getMeta = .ok r
      ∧ r.url = page.finalUrl
      ∧ r.icons = applyEnrichment opts
          (applyDefaultFallback
            (parseIconLinks page.load page.finalUrl
              ++ (manifestData page.load page.finalUrl manifestFetch).1)
            page.finalUrl) getMeta
      ∧ fetchFavicon url2 opts (.ok page) manifestFetch getMeta = .ok r := by
  refine ⟨_, fetchFavicon_ok hval, rfl, rfl, fetchFavicon_ok hval2⟩

/-- C2 witness: the theorem applied to two different validated request URLs
reaching the same final page. -/
theorem fetchFavicon_uses_final_url_witness :
    ∃ r, fetchFavicon "http://example.com/" defaultOpts
        (.ok ⟨.ok emptyDoc, "https://www.example.com/home"⟩) (.error "none")
        (fun _ => none) = .ok r
      ∧ r.url = "https://www.example.com/home"
      ∧ r.icons = applyEnrichment defaultOpts
          (applyDefaultFallback
            (parseIconLinks (.ok emptyDoc) "https://www.example.com/home"
              ++ (manifestData (.ok emptyDoc) "https://www.example.com/home"
                    (.error "none")).1)
            "https://www.example.com/home") (fun _ => none)
      ∧ fetchFavicon "https://other.example.org/x" defaultOpts
          (.ok ⟨.ok emptyDoc, "https://www.example.com/home"⟩) (.error "none")
          (fun _ => none) = .ok r := by
  exact fetchFavicon_uses_final_url "http://example.com/" "http://example.com/"
    "https://other.example.org/x" "https://other.example.org/x" defaultOpts
    ⟨.ok emptyDoc, "https://www.example.com/home"⟩ (.error "none") (fun _ => none)
    rfl rfl



/-! ## C3 -/

/-- A page whose HTML declares one icon link and a manifest link. -/
def manifestFailDoc : HtmlDoc := { emptyDoc with
  titleText := "Example"
  links := [⟨some "icon", some "/icon.png", none⟩,
            ⟨some "manifest", some "/manifest.json", none⟩] }

/-- C3 counterexample: with the HTML fetch succeeding and the manifest fetch
failing (HTTP 404), the HTML-sourced data is intact but the errors field is
absent — it does not contain a `fetch_manifest` operation error, because
`fetchManifest` swallows the failure internally and returns null. -/
theorem manifest_failure_no_error_counterexample :
    (fetchFavicon "https://example.com/" defaultOpts
        (.ok ⟨.ok manifestFailDoc, "https://example.com/"⟩)
        (.error "HTTP 404: Not Found for https://example.com/manifest.json")
        (fun _ => none)).map
      (fun r => (r.errors, r.titles, r.icons))
    = .ok (none,
           [⟨"Example", "html", "title"⟩],
           [⟨"https://example.com/icon.png", "icon", "", "html", none⟩]) := rfl

/-- C3 (amended): when the HTML fetch succeeds and the manifest fetch or
parse fails, the result still contains all HTML-sourced icons, titles and
descriptions and the failure is never thrown to the caller; however no
`OperationError` is recorded — `fetchManifest` catches the failure
internally (logging a console warning) and returns null, so the
orchestrator's fetch_manifest catch never fires and the result carries no
errors list. -/
theorem manifest_failure_soft (url n e : String) (opts : FetchOptions)
    (page : FetchedPage) (getMeta : String → Option ImageMetadata)
    (hval : validateUrl url = .ok n) :
    ∃ r, fetchFavicon url opts (.ok page) (.error e) getMeta = .ok r
      ∧ r.title = parseTitle page.load
      ∧ r.titles = parseTitles page.load
      ∧ r.descriptions = parseDescriptions page.load
      ∧ r.icons = applyEnrichment opts
          (applyDefaultFallback (parseIconLinks page.load page.finalUrl)
            page.finalUrl) getMeta
      ∧ r.errors = none := by
  refine ⟨_, fetchFavicon_ok hval, rfl, ?_, ?_, ?_, rfl⟩
  · show parseTitles page.load ++ (manifestData page.load page.finalUrl (.error e)).2.1
      = parseTitles page.load
    rw [manifestData_error]
    simp
  · show parseDescriptions page.load
        ++ (manifestData page.load page.finalUrl (.error e)).2.2
      = parseDescriptions page.load
    rw [manifestData_error]
    simp
  · show applyEnrichment opts
      (applyDefaultFallback (mergedIcons page.load page.finalUrl (.error e))
        page.finalUrl) getMeta = _
    unfold mergedIcons
    rw [manifestData_error]
    simp

/-- C3 witness: the amended theorem applied at the concrete failing-manifest
input. -/
theorem manifest_failure_soft_witness :
    ∃ r, fetchFavicon "https://example.com/" defaultOpts
        (.ok ⟨.ok manifestFailDoc, "https://example.com/"⟩)
        (.error "HTTP 404: Not Found for https://example.com/manifest.json")
        (fun _ => none) = .ok r
      ∧ r.title = parseTitle (.ok manifestFailDoc)
      ∧ r.titles = parseTitles (.ok manifestFailDoc)
      ∧ r.descriptions = parseDescriptions (.ok manifestFailDoc)
      ∧ r.icons = applyEnrichment defaultOpts
          (applyDefaultFallback (parseIconLinks (.ok manifestFailDoc) "https://example.com/")
            "https://example.com/") (fun _ => none)
      ∧ r.errors = none :=
  manifest_failure_soft "https://example.com/" "https://example.com/"
    "HTTP 404: Not Found for https://example.com/manifest.json" defaultOpts
    ⟨.ok manifestFailDoc, "https://example.com/"⟩ (fun _ => none) rfl

/-! ## C4 -/

/-- C4 counterexample: on an HTML parse exception inside the extractors the
call still succeeds with empty extractor output and a default icon, but the
errors field is absent — no `OperationError` tagged with any extractor step
name is appended, because each extractor catches its exception internally
and only logs a console warning. -/
theorem extractor_exception_no_error_counterexample :
    (fetchFavicon "https://example.com/" defaultOpts
        (.ok ⟨.error "Unexpected token <", "https://example.com/"⟩)
        (.error "no manifest") (fun _ => none)).map
      (fun r => (r.errors, r.title, r.titles, r.descriptions, r.icons))
    = .ok (none, "", [], [],
           [⟨"https://example.com/favicon.ico", "default", "", "default", none⟩]) := rfl

/-- C4 (amended): a parse exception inside the HTML extractors is caught
inside each extractor (which logs a console warning), each extractor
contributes an empty result, and the exception never propagates out of
`fetchFavicon`; however it is not recorded as an `OperationError` — the
orchestrator's per-extractor catch blocks are unreachable because every
extractor returns normally, so the result carries no errors list. -/
theorem extractor_exception_soft (url n msg finalUrl : String)
    (opts : FetchOptions) (manifestFetch : Except String WebAppManifest)
    (getMeta : String → Option ImageMetadata)
    (hval : validateUrl url = .ok n) :
    parseTitle (.error msg) = ""
    ∧ parseTitles (.error msg) = []
    ∧ parseDescriptions (.error msg) = []
    ∧ parseIconLinks (.error msg) finalUrl = []
    ∧ getManifestUrl (.error msg) finalUrl = none
    ∧ ∃ r, fetchFavicon url opts (.ok ⟨.error msg, finalUrl⟩) manifestFetch getMeta
        = .ok r
      ∧ r.title = "" ∧ r.titles = [] ∧ r.descriptions = [] ∧ r.errors = none := by
  refine ⟨rfl, rfl, rfl, rfl, rfl, _, fetchFavicon_ok hval, rfl, ?_, ?_, rfl⟩
  · show parseTitles (.error msg) ++ (manifestData (.error msg) finalUrl manifestFetch).2.1 = []
    rfl
  · show parseDescriptions (.error msg)
        ++ (manifestData (.error msg) finalUrl manifestFetch).2.2 = []
    rfl

/-- C4 witness: the amended theorem applied at a concrete input. -/
theorem extractor_exception_soft_witness :
    parseTitle (.error "Unexpected token <") = ""
    ∧ parseTitles (.error "Unexpected token <") = []
    ∧ parseDescriptions (.error "Unexpected token <") = []
    ∧ parseIconLinks (.error "Unexpected token <") "https://example.com/" = []
    ∧ getManifestUrl (.error "Unexpected token <") "https://example.com/" = none
    ∧ ∃ r, fetchFavicon "https://example.com/" defaultOpts
        (.ok ⟨.error "Unexpected token <", "https://example.com/"⟩)
        (.error "no manifest") (fun _ => none) = .ok r
      ∧ r.title = "" ∧ r.titles = [] ∧ r.descriptions = [] ∧ r.errors = none :=
  extractor_exception_soft "https://example.com/" "https://example.com/"
    "Unexpected token <" "https://example.com/" defaultOpts (.error "no manifest")
    (fun _ => none) rfl



/-! ## C5 -/

/-- C5: in every successful result the icons are ordered by source priority
(html before manifest before default); when the merged list is non-empty and
no enrichment runs it is exactly the concatenation
`html_icons ++ manifest_icons` with no deduplication; titles and
descriptions are likewise plain concatenations with the HTML part first. -/
theorem icons_priority_order (url n : String) (opts : FetchOptions)
    (page : FetchedPage) (manifestFetch : Except String WebAppManifest)
    (getMeta : String → Option ImageMetadata)
    (hval : validateUrl url = .ok n) :
    ∃ r, fetchFavicon url opts (.ok page) manifestFetch getMeta = .ok r
      ∧ r.titles = parseTitles page.load
          ++ (manifestData page.load page.finalUrl manifestFetch).2.1
      ∧ r.descriptions = parseDescriptions page.load
          ++ (manifestData page.load page.finalUrl manifestFetch).2.2
      ∧ (opts.includeMetadata = false →
          parseIconLinks page.load page.finalUrl
              ++ (manifestData page.load page.finalUrl manifestFetch).1 ≠ [] →
          r.icons = parseIconLinks page.load page.finalUrl
              ++ (manifestData page.load page.finalUrl manifestFetch).1)
      ∧ r.icons.Pairwise (fun a b => srcPrio a.source ≤ srcPrio b.source) := by
  refine ⟨_, fetchFavicon_ok hval, rfl, rfl, ?_, ?_⟩
  · intro hmeta hne
    show applyEnrichment opts
        (applyDefaultFallback (mergedIcons page.load page.finalUrl manifestFetch)
          page.finalUrl) getMeta = _
    unfold applyEnrichment
    rw [if_neg (by rw [hmeta]; simp)]
    unfold applyDefaultFallback
    have hne' : ¬(mergedIcons page.load page.finalUrl manifestFetch).isEmpty = true := by
      rw [List.isEmpty_iff]
      exact hne
    rw [if_neg hne']
    rfl
  · show (applyEnrichment opts
        (applyDefaultFallback (mergedIcons page.load page.finalUrl manifestFetch)
          page.finalUrl) getMeta).Pairwise _
    exact applyEnrichment_pairwise _ _ _
      (applyDefaultFallback_pairwise _ _ (mergedIcons_pairwise _ _ _))

/-- C5 witness: the ordering theorem applied at a concrete input with both
HTML and manifest icons. -/
theorem icons_priority_order_witness :
    ∃ r, fetchFavicon "https://example.com/" defaultOpts
        (.ok ⟨.ok manifestFailDoc, "https://example.com/"⟩)
        (.ok ⟨some "Example App", none, none,
              some [⟨some "/m192.png", some "image/png", some "192x192"⟩]⟩)
        (fun _ => none) = .ok r
      ∧ r.titles = parseTitles (.ok manifestFailDoc)
          ++ (manifestData (.ok manifestFailDoc) "https://example.com/"
                (.ok ⟨some "Example App", none, none,
                      some [⟨some "/m192.png", some "image/png", some "192x192"⟩]⟩)).2.1
      ∧ r.descriptions = parseDescriptions (.ok manifestFailDoc)
          ++ (manifestData (.ok manifestFailDoc) "https://example.com/"
                (.ok ⟨some "Example App", none, none,
                      some [⟨some "/m192.png", some "image/png", some "192x192"⟩]⟩)).2.2
      ∧ (defaultOpts.includeMetadata = false →
          parseIconLinks (.ok manifestFailDoc) "https://example.com/"
              ++ (manifestData (.ok manifestFailDoc) "https://example.com/"
                    (.ok ⟨some "Example App", none, none,
                          some [⟨some "/m192.png", some "image/png", some "192x192"⟩]⟩)).1 ≠ [] →
          r.icons = parseIconLinks (.ok manifestFailDoc) "https://example.com/"
              ++ (manifestData (.ok manifestFailDoc) "https://example.com/"
                    (.ok ⟨some "Example App", none, none,
                          some [⟨some "/m192.png", some "image/png", some "192x192"⟩]⟩)).1)
      ∧ r.icons.Pairwise (fun a b => srcPrio a.source ≤ srcPrio b.source) :=
  icons_priority_order "https://example.com/" "https://example.com/" defaultOpts
    ⟨.ok manifestFailDoc, "https://example.com/"⟩
    (.ok ⟨some "Example App", none, none,
          some [⟨some "/m192.png", some "image/png", some "192x192"⟩]⟩)
    (fun _ => none) rfl

/-! ## C7 -/

/-- C7: every successful result carries a descriptions sequence equal to the
HTML description candidates — collected in the fixed order html description,
then `og:description`, then `twitter:description`, each only when non-empty
after trimming — followed by the manifest description candidate when one
exists. -/
theorem descriptions_order (url n : String) (opts : FetchOptions)
    (page : FetchedPage) (manifestFetch : Except String WebAppManifest)
    (getMeta : String → Option ImageMetadata)
    (hval : validateUrl url = .ok n) :
    ∃ r, fetchFavicon url opts (.ok page) manifestFetch getMeta = .ok r
      ∧ r.descriptions = parseDescriptions page.load
          ++ (manifestData page.load page.finalUrl manifestFetch).2.2
      ∧ ∀ doc, page.load = .ok doc →
          r.descriptions =
            ((match doc.metaDescription with
              | some t => if t ≠ "" ∧ trimStr t ≠ "" then
                  [⟨trimStr t, "html", "description"⟩] else []
              | none => [])
             ++ (match doc.ogDescription with
                 | some t => if t ≠ "" ∧ trimStr t ≠ "" then
                     [⟨trimStr t, "opengraph", "og:description"⟩] else []
                 | none => [])
             ++ (match doc.twitterDescription with
                 | some t => if t ≠ "" ∧ trimStr t ≠ "" then
                     [⟨trimStr t, "twitter", "twitter:description"⟩] else []
                 | none => []))
            ++ (manifestData page.load page.finalUrl manifestFetch).2.2 := by
  refine ⟨_, fetchFavicon_ok hval, rfl, ?_⟩
  intro doc hdoc
  show parseDescriptions page.load
      ++ (manifestData page.load page.finalUrl manifestFetch).2.2 = _
  rw [hdoc]
  rfl

/-- C7 witness: the descriptions theorem applied at a document carrying all
three description metas plus a manifest description. -/
theorem descriptions_order_witness :
    ∃ r, fetchFavicon "https://example.com/" defaultOpts
        (.ok ⟨.ok { emptyDoc with
            metaDescription := some " d1 "
            ogDescription := some "d2"
            twitterDescription := some "d3" }, "https://example.com/"⟩)
        (.ok ⟨none, none, some "d4", none⟩) (fun _ => none) = .ok r
      ∧ r.descriptions = parseDescriptions (.ok { emptyDoc with
            metaDescription := some " d1 "
            ogDescription := some "d2"
            twitterDescription := some "d3" })
          ++ (manifestData (.ok { emptyDoc with
                metaDescription := some " d1 "
                ogDescription := some "d2"
                twitterDescription := some "d3" }) "https://example.com/"
              (.ok ⟨none, none, some "d4", none⟩)).2.2
      ∧ ∀ doc, (Except.ok { emptyDoc with
            metaDescription := some " d1 "
            ogDescription := some "d2"
            twitterDescription := some "d3" } : Except String HtmlDoc) = .ok doc →
          r.descriptions =
            ((match doc.metaDescription with
              | some t => if t ≠ "" ∧ trimStr t ≠ "" then
                  [⟨trimStr t, "html", "description"⟩] else []
              | none => [])
             ++ (match doc.ogDescription with
                 | some t => if t ≠ "" ∧ trimStr t ≠ "" then
                     [⟨trimStr t, "opengraph", "og:description"⟩] else []
                 | none => [])
             ++ (match doc.twitterDescription with
                 | some t => if t ≠ "" ∧ trimStr t ≠ "" then
                     [⟨trimStr t, "twitter", "twitter:description"⟩] else []
                 | none => []))
            ++ (manifestData (.ok { emptyDoc with
                  metaDescription := some " d1 "
                  ogDescription := some "d2"
                  twitterDescription := some "d3" }) "https://example.com/"
                (.ok ⟨none, none, some "d4", none⟩)).2.2 :=
  descriptions_order "https://example.com/" "https://example.com/" defaultOpts
    ⟨.ok { emptyDoc with
        metaDescription := some " d1 "
        ogDescription := some "d2"
        twitterDescription := some "d3" }, "https://example.com/"⟩
    (.ok ⟨none, none, some "d4", none⟩) (fun _ => none) rfl

end Favicon
